import Mathlib

/-!
# termbox-c.go: the Go-to-C termbox bindings

A shallow embedding of `termbox-c.go`: the mirror buffer (`cellBuffer`,
`cellSize`) kept in C memory next to the grid of the termbox-go backend, and
the translation of backend events into `struct tb_event`.

* C memory is a heap of blocks of `struct tb_cell` records; a pointer is
  `Option Nat` (`none` is `nil`), and an access through `nil`, through a
  pointer that is not live, or past the end of a block has no result (`none`).
* A Go index out of range (`buf[i]` with `i >= len(buf)`) panics: no result.
* Go `int` sizes (`w`, `h`, `cellSize`, `len(buf)`) are natural numbers; fixed
  width fields are natural numbers or integers with the conversions of the
  source written out (`uint16_t`, `uint32`, `rune`).
* termbox-go is an external library: its constants are the fields of
  `Termbox`, and its calls act on the backend part of `State`.
-/

namespace TermboxC

/-! ## C declarations of the cgo preamble -/

def TB_BLACK : Nat := 1
def TB_WHITE : Nat := 8
def TB_BOLD : Nat := 0x0100
def TB_UNDERLINE : Nat := 0x0200
def TB_EVENT_KEY : Nat := 1
def TB_EVENT_RESIZE : Nat := 2
def TB_KEY_ARROW_UP : Nat := 0xFFFF - 18
def TB_KEY_ARROW_DOWN : Nat := 0xFFFF - 19
def TB_KEY_SPACE : Nat := 0x20

/-- The C record `struct tb_cell`: `uint32_t ch; uint16_t fg; uint16_t bg;`. -/
structure tb_cell where
  ch : Nat
  fg : Nat
  bg : Nat
deriving DecidableEq, Repr

/-- The C record `struct tb_event`: `uint8_t type, mod; uint16_t key; uint32_t ch;
int32_t w, h, x, y;`. -/
structure tb_event where
  type : Nat
  mod : Nat
  key : Nat
  ch : Nat
  w : Int
  h : Int
  x : Int
  y : Int
deriving DecidableEq, Repr

/-- The size in bytes of `struct tb_cell` (4 + 2 + 2, no padding). -/
def sizeof_struct_tb_cell : Nat := 8

/-! ## The termbox-go backend (external library) -/

/-- The termbox-go constants the bindings name. The library is not part of the
repository, so their values are parameters. -/
structure Termbox where
  EventKey : Nat
  EventResize : Nat
  KeySpace : Nat
  KeyArrowUp : Nat
  KeyArrowDown : Nat
  ColorDefault : Nat
  ColorBlack : Nat
  ColorWhite : Nat
deriving DecidableEq, Repr

/-- The values the constants have in termbox-go (`api_common.go`). -/
def termbox_go : Termbox where
  EventKey := 0
  EventResize := 1
  KeySpace := 0x20
  KeyArrowUp := 0xFFFF - 18
  KeyArrowDown := 0xFFFF - 19
  ColorDefault := 0
  ColorBlack := 1
  ColorWhite := 8

/-- The Go record `termbox.Cell`: `Ch rune; Fg, Bg Attribute`. A rune is a
signed 32-bit integer, an attribute an unsigned integer. -/
structure Cell where
  Ch : Int
  Fg : Nat
  Bg : Nat
deriving DecidableEq, Repr

/-- The Go record `termbox.Event`, with the fields of a key, resize or mouse event
(`Type_` is the Go field `Type`). -/
structure Event where
  Type_ : Nat
  Mod : Nat
  Key : Nat
  Ch : Int
  Width : Int
  Height : Int
  MouseX : Int
  MouseY : Int
deriving DecidableEq, Repr

/-- The Go map `attrs`, from a `uint16_t` code to a backend attribute, as the
list of its entries. -/
def attrs (K : Termbox) : List (Nat × Nat) :=
  [(0, K.ColorDefault), (1, K.ColorBlack), (8, K.ColorWhite)]

/-- The Go map `cattrs`, from a backend attribute to a `uint16_t` code, as the
list of its entries. -/
def cattrs (K : Termbox) : List (Nat × Nat) :=
  [(K.ColorDefault, 0), (K.ColorBlack, 1), (K.ColorWhite, 2)]

/-! ## Conversions between Go and C integer types -/

/-- The conversion `C.uint16_t(a)` of an attribute: the low 16 bits. -/
def uint16_t (a : Nat) : Nat := a % 2 ^ 16

/-- The conversion `termbox.Attribute(x)` of a `uint16_t`: the same value. -/
def Attribute (x : Nat) : Nat := x

/-- The conversion `uint32(r)` of a rune (followed by `C.uint32_t`, which keeps
the value): the rune modulo `2^32`. -/
def uint32 (r : Int) : Nat := (r % 2 ^ 32).toNat

/-- The conversion `rune(uint32(x))` of a `uint32_t`: the same 32 bits read as a
signed integer. -/
def rune (x : Nat) : Int :=
  if x % 2 ^ 32 < 2 ^ 31 then ((x % 2 ^ 32 : Nat) : Int) else ((x % 2 ^ 32 : Nat) : Int) - 2 ^ 32

/-! ## C heap -/

/-- The C heap: the live blocks by address, the next address `malloc` hands
out, the addresses released by `free` (latest first), and the value a fresh
block is filled with (`malloc` does not initialise). -/
structure Heap where
  live : List (Nat × List tb_cell)
  next : Nat
  freed : List Nat
  garbage : tb_cell
deriving DecidableEq, Repr

/-- The block at an address, if live. -/
def Heap.lookup (hp : Heap) (a : Nat) : Option (List tb_cell) := hp.live.lookup a

/-- The call `malloc(bytes)`: a fresh block of `bytes / sizeof(struct tb_cell)`
records. Allocation failure is not modelled. -/
def Heap.malloc (hp : Heap) (bytes : Nat) : Nat × Heap :=
  (hp.next,
   { hp with
     live := (hp.next, List.replicate (bytes / sizeof_struct_tb_cell) hp.garbage) :: hp.live
     next := hp.next + 1 })

/-- The call `free(a)`: releases a live block; freeing anything else has no result. -/
def Heap.free (hp : Heap) (a : Nat) : Option Heap :=
  if (hp.lookup a).isSome then
    some { hp with live := hp.live.filter (fun e => e.1 != a), freed := a :: hp.freed }
  else none

/-- Replaces the contents of the block `lookup` finds at address `a` in a list
of blocks. -/
def storeBlock (a : Nat) (cells : List tb_cell) :
    List (Nat × List tb_cell) → List (Nat × List tb_cell)
  | [] => []
  | e :: es => if e.1 = a then (a, cells) :: es else e :: storeBlock a cells es

/-- Replaces the contents of the block at `a`. -/
def Heap.store (hp : Heap) (a : Nat) (cells : List tb_cell) : Heap :=
  { hp with live := storeBlock a cells hp.live }

/-- The record `i` of the block a pointer refers to: the dereference of
`cellBuffer + sizeof(struct tb_cell) * i`. -/
def deref (hp : Heap) (p : Option Nat) (i : Nat) : Option tb_cell :=
  match p with
  | none => none
  | some a => (hp.lookup a).bind (fun cells => cells[i]?)

/-- The eight bytes of a record in memory (little-endian fields: `ch` at
offset 0, `fg` at 4, `bg` at 6). -/
def tb_cell.toBytes (c : tb_cell) : List Nat :=
  [c.ch % 256, c.ch / 256 % 256, c.ch / 65536 % 256, c.ch / 16777216 % 256,
   c.fg % 256, c.fg / 256 % 256, c.bg % 256, c.bg / 256 % 256]

/-- The record eight bytes of memory hold. -/
def tb_cell.ofBytes : List Nat → tb_cell
  | [b0, b1, b2, b3, b4, b5, b6, b7] =>
      ⟨b0 + 256 * b1 + 65536 * b2 + 16777216 * b3, b4 + 256 * b5, b6 + 256 * b7⟩
  | _ => ⟨0, 0, 0⟩

/-- The first `k` bytes of a record set to `c`; a record none of whose bytes is
written is left as it is. -/
def memsetCell (x : tb_cell) (c k : Nat) : tb_cell :=
  if k = 0 then x
  else tb_cell.ofBytes
    (List.replicate (min k sizeof_struct_tb_cell) (c % 256) ++ (x.toBytes).drop k)

/-- The call `memset(p, c, n)` on a block: the first `n` bytes are set to `c`.
Record `j` occupies bytes `8 * j` to `8 * j + 7`, so its first `n - 8 * j`
bytes (at most 8) are overwritten. Writing past the block has no result. -/
def memset (cells : List tb_cell) (c : Nat) (n : Nat) : Option (List tb_cell) :=
  if n ≤ sizeof_struct_tb_cell * cells.length then
    some (cells.enum.map (fun e => memsetCell e.2 c (n - sizeof_struct_tb_cell * e.1)))
  else none

/-! ## Program state -/

/-- The state the bindings work on: the backend (terminal size, back buffer,
and the frame last flushed to the terminal), the globals `cellBuffer` and
`cellSize`, and the C heap. -/
structure State where
  w : Nat
  h : Nat
  buf : List Cell
  front : List Cell
  cellBuffer : Option Nat
  cellSize : Nat
  heap : Heap
deriving DecidableEq, Repr

/-- Modelled from the spec: the backend call `termbox.Size()` (termbox-go, an
external library), the current terminal width and height. -/
def termbox_Size (s : State) : Nat × Nat := (s.w, s.h)

/-- Modelled from the spec: the backend call `termbox.CellBuffer()` (termbox-go,
an external library), the back buffer as a slice. -/
def termbox_CellBuffer (s : State) : List Cell := s.buf

/-- Modelled from the spec: the backend call `termbox.Flush()` (termbox-go, an
external library): the back buffer is written to the terminal and is itself
left as it is. A terminal resize is a step of its own (`Reachable.backend`). -/
def termbox_Flush (s : State) : State := { s with front := s.buf }

/-- Modelled from the spec: the backend call `termbox.Clear(fg, bg)` (termbox-go,
an external library): every cell of the back buffer becomes a space with the
given attributes. -/
def termbox_Clear (fg bg : Nat) (s : State) : State :=
  { s with buf := List.replicate s.buf.length ⟨32, fg, bg⟩ }

/-- Modelled from the spec: the backend call `termbox.Close()` (termbox-go, an
external library): releases backend resources; neither the globals nor the C
heap are touched. -/
def termbox_Close (s : State) : State := s

/-- The contents of the mirror buffer: no record for `nil`, the block at
`cellBuffer` otherwise (`none` if the pointer is not live). -/
def mirror (s : State) : Option (List tb_cell) :=
  match s.cellBuffer with
  | none => some []
  | some a => s.heap.lookup a

/-- The backend cell one iteration of the loop of `tb_present` writes from a
record of the mirror buffer. -/
def toCell (c : tb_cell) : Cell := ⟨rune c.ch, Attribute c.fg, Attribute c.bg⟩

/-- The record one iteration of the loop of `tb_cell_buffer` writes from a
backend cell. -/
def ofCell (b : Cell) : tb_cell := ⟨uint32 b.Ch, uint16_t b.Fg, uint16_t b.Bg⟩

/-! ## The exported functions -/

/-- The function `tb_init`: resets the globals, then reports the result of
`termbox.Init()` (`err` tells whether it returned an error). -/
def tb_init (err : Bool) (s : State) : State × Int :=
  let s1 := { s with cellBuffer := none, cellSize := 0 }
  if err then (s1, -1) else (s1, 0)

/-- The function `tb_shutdown`. -/
def tb_shutdown (s : State) : State := termbox_Close s

/-- The function `tb_clear`. -/
def tb_clear (K : Termbox) (s : State) : Option State := do
  let s1 ←
    if s.cellBuffer ≠ none ∧ s.cellSize ≠ 0 then
      do
        let a ← s.cellBuffer
        let cells ← s.heap.lookup a
        let cells1 ← memset cells 0 s.cellSize
        pure { s with heap := s.heap.store a cells1 }
    else pure s
  pure (termbox_Clear K.ColorDefault K.ColorDefault s1)

/-- The body of the loop of `tb_present` at index `i`, on the back buffer. -/
def tb_present_body (hp : Heap) (p : Option Nat) (buf : List Cell) (i : Nat) :
    Option (List Cell) := do
  let c_cell ← deref hp p i
  let b ← buf[i]?
  pure (buf.set i { b with Fg := Attribute c_cell.fg, Bg := Attribute c_cell.bg, Ch := rune c_cell.ch })

/-- The function `tb_present`. -/
def tb_present (s : State) : Option State :=
  let (w, h) := termbox_Size s
  let buf := termbox_CellBuffer s
  if s.cellSize = w * h then
    do
      let buf1 ← (List.range (w * h)).foldlM (tb_present_body s.heap s.cellBuffer) buf
      pure (termbox_Flush { s with buf := buf1 })
  else pure (termbox_Flush s)

/-- The body of the loop of `tb_cell_buffer` at index `i`, on the C heap. -/
def tb_cell_buffer_body (p : Option Nat) (buf : List Cell) (hp : Heap) (i : Nat) :
    Option Heap := do
  let a ← p
  let cells ← hp.lookup a
  let c_cell ← cells[i]?
  let b ← buf[i]?
  pure (hp.store a
    (cells.set i { c_cell with fg := uint16_t b.Fg, bg := uint16_t b.Bg, ch := uint32 b.Ch }))

/-- The function `tb_cell_buffer`: the new state and the returned pointer. -/
def tb_cell_buffer (s : State) : Option (State × Option Nat) := do
  let (w, h) := termbox_Size s
  let buf := termbox_CellBuffer s
  let s1 ←
    if s.cellSize ≠ buf.length then
      do
        let hp1 ←
          match s.cellBuffer with
          | some a => s.heap.free a
          | none => pure s.heap
        let (a1, hp2) := hp1.malloc (sizeof_struct_tb_cell * (w * h))
        pure { s with cellBuffer := some a1, cellSize := w * h, heap := hp2 }
    else pure s
  let hp ← (List.range (w * h)).foldlM (tb_cell_buffer_body s1.cellBuffer buf) s1.heap
  pure ({ s1 with heap := hp }, s1.cellBuffer)

/-- The function `tb_poll_event`, given the event `termbox.PollEvent()` returned
and the record `ev` points to: the record after the call and the return value. -/
def tb_poll_event (K : Termbox) (event : Event) (ev : tb_event) : tb_event × Int :=
  if event.Type_ = K.EventKey then
    let ev1 := { ev with type := TB_EVENT_KEY }
    if event.Ch = 0 then
      if event.Key = K.KeySpace then ({ ev1 with key := TB_KEY_SPACE }, 1)
      else if event.Key = K.KeyArrowUp then ({ ev1 with key := TB_KEY_ARROW_UP }, 1)
      else if event.Key = K.KeyArrowDown then ({ ev1 with key := TB_KEY_ARROW_DOWN }, 1)
      else ({ ev1 with key := 0 }, 1)
    else ({ ev1 with key := 0, ch := uint32 event.Ch }, 1)
  else if event.Type_ = K.EventResize then ({ ev with type := TB_EVENT_RESIZE }, 1)
  else ({ ev with type := 3 }, 1)

/-! ## Reachable states -/

/-- The heap is well formed: every live address and every freed address is
below `next`, no freed address is live, and no address was freed twice. -/
def Heap.WF (hp : Heap) : Prop :=
  (∀ e ∈ hp.live, e.1 < hp.next) ∧ (∀ a ∈ hp.freed, a < hp.next) ∧
  (∀ a ∈ hp.freed, hp.lookup a = none) ∧ hp.freed.Nodup

/-- The backend grid has `w * h` cells and the heap is well formed. -/
def State.Sane (s : State) : Prop := s.buf.length = s.w * s.h ∧ s.heap.WF

/-- The mirror invariant: a sane state in which `cellSize` is 0 when
`cellBuffer` is `nil`, and otherwise `cellBuffer` is a live block of exactly
`cellSize` records. -/
def State.Inv (s : State) : Prop :=
  s.Sane ∧
  match s.cellBuffer with
  | none => s.cellSize = 0
  | some a => ∃ cells, s.heap.lookup a = some cells ∧ cells.length = s.cellSize

/-- The states reachable after `tb_init`: `tb_init` from any sane state, then
any sequence of the exported functions, of backend changes (a terminal resize
or a redraw, leaving a grid of `w * h` cells) and of caller writes into the
records of the mirror buffer. -/
inductive Reachable (K : Termbox) : State → Prop
  | init (s : State) (err : Bool) : s.Sane → Reachable K (tb_init err s).1
  | cell_buffer (s s1 : State) (p : Option Nat) :
      Reachable K s → tb_cell_buffer s = some (s1, p) → Reachable K s1
  | present (s s1 : State) : Reachable K s → tb_present s = some s1 → Reachable K s1
  | clear (s s1 : State) : Reachable K s → tb_clear K s = some s1 → Reachable K s1
  | shutdown (s : State) : Reachable K s → Reachable K (tb_shutdown s)
  | backend (s : State) (w h : Nat) (buf front : List Cell) :
      Reachable K s → buf.length = w * h →
      Reachable K { s with w := w, h := h, buf := buf, front := front }
  | edit (s : State) (a : Nat) (cells cells1 : List tb_cell) :
      Reachable K s → s.cellBuffer = some a → s.heap.lookup a = some cells →
      cells1.length = cells.length →
      Reachable K { s with heap := s.heap.store a cells1 }

/-! ## Example states -/

/-- An empty heap. -/
def emptyHeap : Heap := ⟨[], 0, [], ⟨0, 0, 0⟩⟩

/-- A 2x1 terminal showing the letters a and b, before `tb_init`. -/
def exampleBackend : State := ⟨2, 1, [⟨97, 1, 2⟩, ⟨98, 3, 4⟩], [], none, 0, emptyHeap⟩

/-- The state after `tb_init` on the 2x1 terminal. -/
def exampleState : State := (tb_init false exampleBackend).1

/-- A 1x1 terminal whose mirror buffer, a live block of one record, holds the
32-bit value `2^31` in `ch`. -/
def exampleHighBit : State :=
  ⟨1, 1, [⟨0, 0, 0⟩], [], some 0, 1, ⟨[(0, [⟨2147483648, 1, 2⟩])], 1, [], ⟨0, 0, 0⟩⟩⟩

/-- A 2x1 terminal whose mirror buffer was acquired when the terminal was 1x1. -/
def exampleMismatch : State :=
  ⟨2, 1, [⟨97, 1, 2⟩, ⟨98, 3, 4⟩], [], some 0, 1, ⟨[(0, [⟨120, 5, 6⟩])], 1, [], ⟨0, 0, 0⟩⟩⟩

/-- The 2x1 terminal after `tb_init` and `tb_cell_buffer`: the buffer is the
block at address 0 and holds the two converted cells. -/
def exampleAcquired : State :=
  ⟨2, 1, [⟨97, 1, 2⟩, ⟨98, 3, 4⟩], [], some 0, 2,
   ⟨[(0, [⟨97, 1, 2⟩, ⟨98, 3, 4⟩])], 1, [], ⟨0, 0, 0⟩⟩⟩

/-! ## Lists and loops -/

/-- A loop over `0, ..., n - 1` whose body keeps an invariant and never fails
under it runs to the end and establishes the invariant at `n`. -/
theorem foldlM_range_inv {σ : Type} (f : σ → Nat → Option σ) (P : Nat → σ → Prop)
    (n : Nat) (s0 : σ) (h0 : P 0 s0)
    (hstep : ∀ k s, k < n → P k s → ∃ s1, f s k = some s1 ∧ P (k + 1) s1) :
    ∃ s1, (List.range n).foldlM f s0 = some s1 ∧ P n s1 := by
  induction n with
  | zero => exact ⟨s0, rfl, h0⟩
  | succ m ih =>
    obtain ⟨s1, hs1, hp1⟩ := ih (fun k s hk hp => hstep k s (Nat.lt_succ_of_lt hk) hp)
    obtain ⟨s2, hs2, hp2⟩ := hstep m s1 (Nat.lt_succ_self m) hp1
    refine ⟨s2, ?_, hp2⟩
    rw [List.range_succ, List.foldlM_append, hs1]
    simp [hs2]

/-- Overwriting position `k` of a list whose first `k` entries are already
converted extends the converted part by one. -/
theorem set_take_map_drop {α β : Type} (f : β → α) (xs : List β) (ys : List α) (k : Nat)
    (hx : k < xs.length) (hy : k < ys.length) :
    ((xs.take k).map f ++ ys.drop k).set k (f xs[k])
      = (xs.take (k + 1)).map f ++ ys.drop (k + 1) := by
  have hl : ((xs.take k).map f).length = k := by
    simp [List.length_take, Nat.min_eq_left (Nat.le_of_lt hx)]
  rw [List.set_append_right _ _ (by rw [hl]), hl, Nat.sub_self,
    List.drop_eq_getElem_cons hy, List.set_cons_zero, List.take_succ,
    List.getElem?_eq_getElem hx, Option.toList, List.map_append, List.append_assoc]
  rfl

/-- Position `k` of a list whose first `k` entries are converted holds the
original entry. -/
theorem getElem?_take_map_drop {α β : Type} (f : β → α) (xs : List β) (ys : List α) (k : Nat)
    (hx : k ≤ xs.length) (hy : k < ys.length) :
    ((xs.take k).map f ++ ys.drop k)[k]? = some ys[k] := by
  have hl : ((xs.take k).map f).length = k := by
    simp [List.length_take, Nat.min_eq_left hx]
  rw [List.getElem?_append_right (by rw [hl]), hl, Nat.sub_self,
    List.drop_eq_getElem_cons hy]
  simp

/-! ## Conversions -/

theorem rune_uint32 (r : Int) (h0 : -2 ^ 31 ≤ r) (h1 : r < 2 ^ 31) : rune (uint32 r) = r := by
  unfold rune uint32
  have hnn : (0 : Int) ≤ r % 2 ^ 32 := Int.emod_nonneg _ (by norm_num)
  have hlt : r % 2 ^ 32 < 2 ^ 32 := Int.emod_lt_of_pos _ (by norm_num)
  have hmod : (r % 2 ^ 32).toNat % 2 ^ 32 = (r % 2 ^ 32).toNat := by
    apply Nat.mod_eq_of_lt
    omega
  rw [hmod]
  have hcast : (((r % 2 ^ 32).toNat : Nat) : Int) = r % 2 ^ 32 := Int.toNat_of_nonneg hnn
  split_ifs with h <;> omega

theorem uint32_rune (x : Nat) (h : x < 2 ^ 32) : uint32 (rune x) = x := by
  unfold rune uint32
  rw [Nat.mod_eq_of_lt h]
  split_ifs with h1 <;> omega

theorem toCell_ofCell (b : Cell) (hf : b.Fg < 2 ^ 16) (hb : b.Bg < 2 ^ 16)
    (h0 : -2 ^ 31 ≤ b.Ch) (h1 : b.Ch < 2 ^ 31) : toCell (ofCell b) = b := by
  cases b with
  | mk Ch Fg Bg =>
    simp only [toCell, ofCell, Attribute, uint16_t] at *
    rw [rune_uint32 Ch h0 h1, Nat.mod_eq_of_lt hf, Nat.mod_eq_of_lt hb]

/-! ## Heap -/

theorem lookup_storeBlock_same (a : Nat) (cs x : List tb_cell) (l : List (Nat × List tb_cell))
    (h : l.lookup a = some x) : (storeBlock a cs l).lookup a = some cs := by
  induction l with
  | nil => simp at h
  | cons e es ih =>
    obtain ⟨k, v⟩ := e
    by_cases hk : k = a
    · subst hk
      simp [storeBlock]
    · have hak : (a == k) = false := by simpa using fun e => hk e.symm
      rw [List.lookup_cons, hak] at h
      simp only [storeBlock, hk, if_false]
      rw [List.lookup_cons, hak]
      exact ih h

theorem lookup_storeBlock_ne (a b : Nat) (cs : List tb_cell) (l : List (Nat × List tb_cell))
    (h : b ≠ a) : (storeBlock a cs l).lookup b = l.lookup b := by
  induction l with
  | nil => rfl
  | cons e es ih =>
    obtain ⟨k, v⟩ := e
    by_cases hk : k = a
    · subst hk
      have hbk : (b == k) = false := by simpa using h
      simp only [storeBlock, if_true]
      rw [List.lookup_cons, List.lookup_cons, hbk]
    · simp only [storeBlock, hk, if_false]
      rw [List.lookup_cons, List.lookup_cons, ih]

theorem storeBlock_storeBlock (a : Nat) (x y : List tb_cell) (l : List (Nat × List tb_cell)) :
    storeBlock a y (storeBlock a x l) = storeBlock a y l := by
  induction l with
  | nil => rfl
  | cons e es ih =>
    by_cases hk : e.1 = a
    · simp [storeBlock, hk]
    · simp [storeBlock, hk, ih]

theorem storeBlock_lookup_self (a : Nat) (x : List tb_cell) (l : List (Nat × List tb_cell))
    (h : l.lookup a = some x) : storeBlock a x l = l := by
  induction l with
  | nil => rfl
  | cons e es ih =>
    obtain ⟨k, v⟩ := e
    by_cases hk : k = a
    · subst hk
      simp only [List.lookup_cons_self, Option.some.injEq] at h
      simp [storeBlock, h]
    · have hak : (a == k) = false := by simpa using fun e => hk e.symm
      rw [List.lookup_cons, hak] at h
      simp [storeBlock, hk, ih h]

theorem map_fst_storeBlock (a : Nat) (cs : List tb_cell) (l : List (Nat × List tb_cell)) :
    (storeBlock a cs l).map Prod.fst = l.map Prod.fst := by
  induction l with
  | nil => rfl
  | cons e es ih =>
    by_cases hk : e.1 = a
    · simp [storeBlock, hk]
    · simp [storeBlock, hk, ih]

theorem lookup_eq_none_iff_fst (a : Nat) (l : List (Nat × List tb_cell)) :
    l.lookup a = none ↔ a ∉ l.map Prod.fst := by
  rw [List.lookup_eq_none_iff]
  constructor
  · intro h hm
    obtain ⟨p, hp, rfl⟩ := List.mem_map.mp hm
    simpa using h p hp
  · intro h p hp
    have : a ≠ p.1 := fun e => h (List.mem_map.mpr ⟨p, hp, e.symm⟩)
    simpa using this

theorem Heap.lookup_store_same (hp : Heap) (a : Nat) (cs x : List tb_cell)
    (h : hp.lookup a = some x) : (hp.store a cs).lookup a = some cs :=
  lookup_storeBlock_same a cs x hp.live h

theorem Heap.lookup_store_ne (hp : Heap) (a b : Nat) (cs : List tb_cell) (h : b ≠ a) :
    (hp.store a cs).lookup b = hp.lookup b :=
  lookup_storeBlock_ne a b cs hp.live h

theorem Heap.store_store (hp : Heap) (a : Nat) (x y : List tb_cell) :
    (hp.store a x).store a y = hp.store a y := by
  simp [Heap.store, storeBlock_storeBlock]

theorem Heap.store_lookup_self (hp : Heap) (a : Nat) (x : List tb_cell)
    (h : hp.lookup a = some x) : hp.store a x = hp := by
  cases hp
  simp only [Heap.store, Heap.lookup] at *
  rw [storeBlock_lookup_self _ _ _ h]

theorem Heap.lookup_store_eq_none (hp : Heap) (a b : Nat) (cs : List tb_cell)
    (h : hp.lookup b = none) : (hp.store a cs).lookup b = none := by
  unfold Heap.lookup Heap.store at *
  rw [lookup_eq_none_iff_fst] at h ⊢
  simpa [map_fst_storeBlock] using h

theorem Heap.WF_store (hp : Heap) (a : Nat) (cs : List tb_cell) (h : hp.WF) :
    (hp.store a cs).WF := by
  obtain ⟨h1, h2, h3, h4⟩ := h
  refine ⟨?_, h2, fun b hb => Heap.lookup_store_eq_none hp a b cs (h3 b hb), h4⟩
  intro e he
  have hm : e.1 ∈ (storeBlock a cs hp.live).map Prod.fst := List.mem_map.mpr ⟨e, he, rfl⟩
  rw [map_fst_storeBlock] at hm
  obtain ⟨p, hp1, hp2⟩ := List.mem_map.mp hm
  have := h1 p hp1
  simp only [Heap.store]
  omega

theorem Heap.WF_malloc (hp : Heap) (bytes : Nat) (h : hp.WF) : (hp.malloc bytes).2.WF := by
  obtain ⟨h1, h2, h3, h4⟩ := h
  refine ⟨?_, ?_, ?_, h4⟩
  · intro e he
    simp only [Heap.malloc, List.mem_cons] at he ⊢
    rcases he with rfl | he
    · exact Nat.lt_succ_self _
    · exact Nat.lt_succ_of_lt (h1 e he)
  · intro b hb
    exact Nat.lt_succ_of_lt (h2 b hb)
  · intro b hb
    have hne : (b == hp.next) = false := by
      have := h2 b hb
      simpa using Nat.ne_of_lt this
    show List.lookup b ((hp.next, _) :: hp.live) = none
    rw [List.lookup_cons, hne]
    exact h3 b hb

theorem Heap.lookup_free (hp hp1 : Heap) (a : Nat) (h : hp.free a = some hp1) :
    (hp.lookup a).isSome ∧ hp1.lookup a = none ∧ (∀ b, b ≠ a → hp1.lookup b = hp.lookup b) ∧
    hp1.next = hp.next ∧ hp1.freed = a :: hp.freed ∧ hp1.garbage = hp.garbage := by
  unfold Heap.free at h
  split_ifs at h with hl
  simp only [Option.some.injEq] at h
  subst h
  refine ⟨hl, ?_, ?_, rfl, rfl, rfl⟩
  · show List.lookup a (hp.live.filter _) = none
    rw [List.lookup_eq_none_iff]
    intro p hp1
    have hne : p.1 ≠ a := by simpa using (List.mem_filter.mp hp1).2
    simpa using fun e => hne e.symm
  · intro b hb
    show List.lookup b (hp.live.filter _) = List.lookup b hp.live
    induction hp.live with
    | nil => rfl
    | cons e es ih =>
      obtain ⟨k, v⟩ := e
      by_cases hk : k = a
      · subst hk
        have hbk : (b == k) = false := by simpa using hb
        simp [List.filter_cons, List.lookup_cons, hbk, ih]
      · by_cases hbk : b = k
        · subst hbk
          simp [List.filter_cons, hk]
        · have hbk1 : (b == k) = false := by simpa using hbk
          simp [List.filter_cons, hk, List.lookup_cons, hbk1, ih]

theorem Heap.WF_free (hp hp1 : Heap) (a : Nat) (h : hp.WF) (hf : hp.free a = some hp1) :
    hp1.WF := by
  obtain ⟨h1, h2, h3, h4⟩ := h
  obtain ⟨f1, f2, f3, f4, f5, _⟩ := Heap.lookup_free hp hp1 a hf
  have hlive : ∀ e ∈ hp1.live, e ∈ hp.live := by
    unfold Heap.free at hf
    split_ifs at hf
    simp only [Option.some.injEq] at hf
    subst hf
    intro e he
    exact (List.mem_filter.mp he).1
  have ha : a ∉ hp.freed := by
    intro hm
    rw [h3 a hm] at f1
    simp at f1
  have halt : a < hp.next := by
    obtain ⟨x, hx⟩ := Option.isSome_iff_exists.mp f1
    have hm : a ∈ hp.live.map Prod.fst := by
      by_contra hc
      rw [← lookup_eq_none_iff_fst] at hc
      unfold Heap.lookup at hx
      rw [hc] at hx
      simp at hx
    obtain ⟨p, hp1, hp2⟩ := List.mem_map.mp hm
    have := h1 p hp1
    omega
  refine ⟨?_, ?_, ?_, ?_⟩
  · intro e he
    rw [f4]
    exact h1 e (hlive e he)
  · intro b hb
    rw [f4]
    rw [f5] at hb
    rcases List.mem_cons.mp hb with rfl | hb
    · exact halt
    · exact h2 b hb
  · intro b hb
    rw [f5] at hb
    rcases List.mem_cons.mp hb with rfl | hb
    · exact f2
    · by_cases hba : b = a
      · rw [hba]; exact f2
      · rw [f3 b hba]; exact h3 b hb
  · rw [f5]
    exact List.nodup_cons.mpr ⟨ha, h4⟩

/-! ## The copy loops -/

/-- The loop of `tb_present` over a block of `n` records and a grid of `n`
cells runs to the end and leaves the grid equal to the converted block. -/
theorem tb_present_loop (hp : Heap) (a : Nat) (cells : List tb_cell) (buf : List Cell)
    (n : Nat) (hl : hp.lookup a = some cells) (hc : cells.length = n) (hb : buf.length = n) :
    (List.range n).foldlM (tb_present_body hp (some a)) buf = some (cells.map toCell) := by
  obtain ⟨r, hr, hP⟩ := foldlM_range_inv (tb_present_body hp (some a))
    (fun k bufk => bufk = (cells.take k).map toCell ++ buf.drop k) n buf (by simp)
    (by
      intro k bufk hk hP
      have hkc : k < cells.length := by omega
      have hkb : k < buf.length := by omega
      refine ⟨(cells.take (k + 1)).map toCell ++ buf.drop (k + 1), ?_, rfl⟩
      have hget : bufk[k]? = some buf[k] := by
        rw [hP]; exact getElem?_take_map_drop toCell cells buf k (Nat.le_of_lt hkc) hkb
      simp only [tb_present_body, deref, hl, Option.bind_eq_bind, Option.some_bind,
        List.getElem?_eq_getElem hkc, hget, Option.pure_def]
      rw [hP, ← set_take_map_drop toCell cells buf k hkc hkb]
      rfl)
  rw [hr, hP, List.take_of_length_le (Nat.le_of_eq hc), List.drop_of_length_le (Nat.le_of_eq hb),
    List.append_nil]

/-- The loop of `tb_cell_buffer` over a grid of `n` cells and a block of `n`
records runs to the end and leaves the block equal to the converted grid. -/
theorem tb_cell_buffer_loop (hp : Heap) (a : Nat) (cells : List tb_cell) (buf : List Cell)
    (n : Nat) (hl : hp.lookup a = some cells) (hc : cells.length = n) (hb : buf.length = n) :
    (List.range n).foldlM (tb_cell_buffer_body (some a) buf) hp
      = some (hp.store a (buf.map ofCell)) := by
  obtain ⟨r, hr, hP⟩ := foldlM_range_inv (tb_cell_buffer_body (some a) buf)
    (fun k hpk => hpk = hp.store a ((buf.take k).map ofCell ++ cells.drop k)) n hp
    (by simp [Heap.store_lookup_self hp a cells hl])
    (by
      intro k hpk hk hP
      have hkc : k < cells.length := by omega
      have hkb : k < buf.length := by omega
      refine ⟨hp.store a ((buf.take (k + 1)).map ofCell ++ cells.drop (k + 1)), ?_, rfl⟩
      have hlk : hpk.lookup a = some ((buf.take k).map ofCell ++ cells.drop k) := by
        rw [hP]; exact Heap.lookup_store_same hp a _ cells hl
      have hget : ((buf.take k).map ofCell ++ cells.drop k)[k]? = some cells[k] :=
        getElem?_take_map_drop ofCell buf cells k (Nat.le_of_lt hkb) hkc
      simp only [tb_cell_buffer_body, hlk, Option.bind_eq_bind, Option.some_bind,
        List.getElem?_eq_getElem hkb, hget, Option.pure_def]
      rw [hP, Heap.store_store, ← set_take_map_drop ofCell buf cells k hkb hkc]
      rfl)
  rw [hr, hP, List.take_of_length_le (Nat.le_of_eq hb), List.drop_of_length_le (Nat.le_of_eq hc),
    List.append_nil]

/-! ## The exported functions on states that satisfy the mirror invariant -/

/-- With matching sizes `tb_present` replaces the grid by the converted mirror
buffer and flushes. -/
theorem tb_present_eq (s : State) (cells : List tb_cell) (hm : mirror s = some cells)
    (hc : cells.length = s.w * s.h) (hs : s.cellSize = s.w * s.h)
    (hb : s.buf.length = s.w * s.h) :
    tb_present s = some (termbox_Flush { s with buf := cells.map toCell }) := by
  unfold tb_present
  simp only [termbox_Size, termbox_CellBuffer, hs, if_true]
  cases hp : s.cellBuffer with
  | none =>
    simp only [mirror, hp, Option.some.injEq] at hm
    subst hm
    have h0 : s.w * s.h = 0 := by simpa using hc.symm
    have hb0 : s.buf = [] := List.length_eq_zero.mp (by omega)
    simp [h0, hb0]
  | some a =>
    simp only [mirror, hp] at hm
    rw [tb_present_loop s.heap a cells s.buf (s.w * s.h) hm hc hb]
    rfl

/-- Without a size change `tb_cell_buffer` keeps the buffer and overwrites its
records with the converted grid. -/
theorem tb_cell_buffer_keep (s : State) (hI : s.Inv) (hs : s.cellSize = s.w * s.h) :
    tb_cell_buffer s =
      some (match s.cellBuffer with
            | none => s
            | some a => { s with heap := s.heap.store a (s.buf.map ofCell) },
            s.cellBuffer) := by
  obtain ⟨w, h, buf, front, cb, cs, heap⟩ := s
  obtain ⟨⟨hb, _⟩, hI2⟩ := hI
  simp only at hs hb hI2
  subst hs
  unfold tb_cell_buffer
  simp only [termbox_Size, termbox_CellBuffer, hb, ne_eq, not_true_eq_false, if_false]
  cases cb with
  | none =>
    have h0 : w * h = 0 := hI2
    simp [h0]
  | some a =>
    obtain ⟨cells, hl, hc⟩ := hI2
    simp only [Option.pure_def, Option.bind_eq_bind, Option.some_bind]
    rw [tb_cell_buffer_loop heap a cells buf (w * h) hl hc hb]
    rfl

/-- After a size change `tb_cell_buffer` frees the old buffer, if any, allocates
a block at the next address and fills it with the converted grid. -/
theorem tb_cell_buffer_realloc (s : State) (hI : s.Inv) (hs : s.cellSize ≠ s.w * s.h) :
    ∃ hp1, (match s.cellBuffer with
            | some a => s.heap.free a = some hp1
            | none => hp1 = s.heap) ∧
      tb_cell_buffer s =
        some ({ s with
                cellBuffer := some hp1.next
                cellSize := s.w * s.h
                heap := (hp1.malloc (sizeof_struct_tb_cell * (s.w * s.h))).2.store hp1.next
                  (s.buf.map ofCell) },
              some hp1.next) := by
  obtain ⟨w, h, buf, front, cb, cs, heap⟩ := s
  obtain ⟨⟨hb, _⟩, hI2⟩ := hI
  simp only at hs hb hI2
  have hloop : ∀ hp1 : Heap,
      (List.range (w * h)).foldlM (tb_cell_buffer_body (some hp1.next) buf)
        (hp1.malloc (sizeof_struct_tb_cell * (w * h))).2
      = some ((hp1.malloc (sizeof_struct_tb_cell * (w * h))).2.store hp1.next
          (buf.map ofCell)) := by
    intro hp1
    apply tb_cell_buffer_loop _ hp1.next (List.replicate (w * h) hp1.garbage) buf
      (w * h) _ (by simp) hb
    simp [Heap.malloc, Heap.lookup, sizeof_struct_tb_cell]
  unfold tb_cell_buffer
  simp only [termbox_Size, termbox_CellBuffer, hb, ne_eq, hs, not_false_eq_true, if_true]
  cases cb with
  | none =>
    refine ⟨heap, rfl, ?_⟩
    simp only [Option.pure_def, Option.bind_eq_bind, Option.some_bind]
    have hl1 := hloop heap
    simp only [Heap.malloc] at hl1 ⊢
    rw [hl1]
    rfl
  | some a =>
    obtain ⟨cells, hl, hc⟩ := hI2
    obtain ⟨hp1, hf⟩ : ∃ hp1, heap.free a = some hp1 := by simp [Heap.free, hl]
    refine ⟨hp1, hf, ?_⟩
    simp only [hf, Option.pure_def, Option.bind_eq_bind, Option.some_bind]
    have hl1 := hloop hp1
    simp only [Heap.malloc] at hl1 ⊢
    rw [hl1]
    rfl

theorem mirror_of_Inv (s : State) (hI : s.Inv) :
    ∃ cells, mirror s = some cells ∧ cells.length = s.cellSize := by
  obtain ⟨_, hI2⟩ := hI
  unfold mirror
  cases hp : s.cellBuffer with
  | none =>
    rw [hp] at hI2
    exact ⟨[], rfl, hI2.symm⟩
  | some a =>
    rw [hp] at hI2
    exact hI2

/-- On a state that satisfies the mirror invariant `tb_cell_buffer` returns the
pointer it leaves in `cellBuffer`; the state after it satisfies the invariant,
the backend is as before, `cellSize` is `w * h` and the mirror buffer holds the
converted grid. -/
theorem tb_cell_buffer_spec (s : State) (hI : s.Inv) :
    ∃ s1, tb_cell_buffer s = some (s1, s1.cellBuffer) ∧ s1.Inv ∧ s1.w = s.w ∧ s1.h = s.h ∧
      s1.buf = s.buf ∧ s1.front = s.front ∧ s1.cellSize = s.w * s.h ∧
      mirror s1 = some (s.buf.map ofCell) := by
  by_cases hs : s.cellSize = s.w * s.h
  · have hk := tb_cell_buffer_keep s hI hs
    obtain ⟨⟨hb, hwf⟩, hI2⟩ := hI
    cases hp : s.cellBuffer with
    | none =>
      rw [hp] at hk hI2
      have hnil : s.buf = [] := List.length_eq_zero.mp (by omega)
      refine ⟨s, by rw [hk, hp], ⟨⟨hb, hwf⟩, by rw [hp]; exact hI2⟩, rfl, rfl, rfl, rfl, hs, ?_⟩
      simp [mirror, hp, hnil]
    | some a =>
      rw [hp] at hk hI2
      obtain ⟨cells, hl, hc⟩ := hI2
      have hl1 := Heap.lookup_store_same s.heap a (s.buf.map ofCell) cells hl
      refine ⟨{ s with heap := s.heap.store a (s.buf.map ofCell) }, by rw [hk, hp],
        ⟨⟨hb, Heap.WF_store _ _ _ hwf⟩, ?_⟩, rfl, rfl, rfl, rfl, hs, ?_⟩
      · simp only [hp]
        exact ⟨_, hl1, by simp; omega⟩
      · simp only [mirror, hp]
        exact hl1
  · obtain ⟨hp1, hfree, hr⟩ := tb_cell_buffer_realloc s hI hs
    obtain ⟨⟨hb, hwf⟩, hI2⟩ := hI
    have hwf1 : hp1.WF := by
      cases hp : s.cellBuffer with
      | none => rw [hp] at hfree; rw [hfree]; exact hwf
      | some a => rw [hp] at hfree; exact Heap.WF_free _ _ a hwf hfree
    have hl1 : ((hp1.malloc (sizeof_struct_tb_cell * (s.w * s.h))).2.store hp1.next
        (s.buf.map ofCell)).lookup hp1.next = some (s.buf.map ofCell) := by
      apply Heap.lookup_store_same _ _ _
        (List.replicate (sizeof_struct_tb_cell * (s.w * s.h) / sizeof_struct_tb_cell) hp1.garbage)
      simp [Heap.malloc, Heap.lookup]
    refine ⟨_, hr, ⟨⟨hb, Heap.WF_store _ _ _ (Heap.WF_malloc _ _ hwf1)⟩, ?_⟩,
      rfl, rfl, rfl, rfl, rfl, ?_⟩
    · exact ⟨_, hl1, by simp; omega⟩
    · exact hl1

/-- What a reallocating `tb_cell_buffer` does to the heap: one `free`, of the
old buffer if there was one, which was live and had not been freed before,
then one `malloc`, whose block becomes `cellBuffer`; the old block is no
longer live. -/
theorem tb_cell_buffer_realloc_heap (s : State) (hI : s.Inv) (hs : s.cellSize ≠ s.w * s.h) :
    ∃ s1, tb_cell_buffer s = some (s1, some s.heap.next) ∧
      s1.cellBuffer = some s.heap.next ∧ s1.heap.next = s.heap.next + 1 ∧
      s1.heap.freed = (match s.cellBuffer with
                       | some a => a :: s.heap.freed
                       | none => s.heap.freed) ∧
      (∀ a, s.cellBuffer = some a →
        a ∉ s.heap.freed ∧ s1.heap.freed.count a = 1 ∧ s1.heap.lookup a = none) := by
  obtain ⟨hp1, hfree, hr⟩ := tb_cell_buffer_realloc s hI hs
  obtain ⟨⟨hb, hwf⟩, hI2⟩ := hI
  cases hp : s.cellBuffer with
  | none =>
    rw [hp] at hfree
    subst hfree
    exact ⟨_, hr, rfl, rfl, rfl, fun a ha => by simp at ha⟩
  | some a =>
    rw [hp] at hfree hI2
    obtain ⟨f1, f2, f3, f4, f5, _⟩ := Heap.lookup_free _ _ a hfree
    have hwf1 : hp1.WF := Heap.WF_free _ _ a hwf hfree
    rw [f4] at hr
    refine ⟨_, hr, rfl, ?_, ?_, ?_⟩
    · show hp1.next + 1 = s.heap.next + 1
      rw [f4]
    · show hp1.freed = a :: s.heap.freed
      exact f5
    · intro b hb1
      simp only [Option.some.injEq] at hb1
      subst hb1
      have hnf : a ∉ s.heap.freed := by
        intro hm
        rw [hwf.2.2.1 a hm] at f1
        simp at f1
      have halt : a < hp1.next := hwf1.2.1 a (by rw [f5]; exact List.mem_cons_self _ _)
      refine ⟨hnf, ?_, ?_⟩
      · show hp1.freed.count a = 1
        rw [f5, List.count_cons_self, List.count_eq_zero_of_not_mem hnf]
      · show ((hp1.malloc _).2.store s.heap.next _).lookup a = none
        apply Heap.lookup_store_eq_none
        have hne : (a == hp1.next) = false := by simpa using Nat.ne_of_lt halt
        show List.lookup a ((hp1.next, _) :: hp1.live) = none
        rw [List.lookup_cons, hne]
        exact f2

theorem memset_some (cells : List tb_cell) (c n : Nat)
    (h : n ≤ sizeof_struct_tb_cell * cells.length) :
    ∃ cells1, memset cells c n = some cells1 ∧ cells1.length = cells.length := by
  refine ⟨_, by rw [memset, if_pos h], ?_⟩
  simp

/-- On a state that satisfies the mirror invariant `tb_clear` returns, and the
state after it satisfies the invariant. -/
theorem tb_clear_spec (K : Termbox) (s : State) (hI : s.Inv) :
    ∃ s1, tb_clear K s = some s1 ∧ s1.Inv := by
  obtain ⟨w, h, buf, front, cb, cs, heap⟩ := s
  obtain ⟨⟨hb, hwf⟩, hI2⟩ := hI
  simp only at hb hwf hI2
  unfold tb_clear
  cases cb with
  | none =>
    refine ⟨_, by simp; rfl, ⟨⟨?_, hwf⟩, hI2⟩⟩
    simp [termbox_Clear, hb]
  | some a =>
    obtain ⟨cells, hl, hc⟩ := hI2
    by_cases h0 : cs = 0
    · refine ⟨_, by simp [h0]; rfl, ⟨⟨?_, hwf⟩, ?_⟩⟩
      · simp [termbox_Clear, hb]
      · exact ⟨cells, hl, by show cells.length = 0; rw [hc, h0]⟩
    · obtain ⟨cells1, hm, hlen⟩ := memset_some cells 0 cs
        (by rw [hc, sizeof_struct_tb_cell]; omega)
      refine ⟨termbox_Clear K.ColorDefault K.ColorDefault
          ⟨w, h, buf, front, some a, cs, heap.store a cells1⟩, ?_, ⟨⟨?_, ?_⟩, ?_⟩⟩
      · simp [h0, hl, hm]
      · simp [termbox_Clear, hb]
      · exact Heap.WF_store _ _ _ hwf
      · exact ⟨cells1, Heap.lookup_store_same heap a cells1 cells hl,
          by show cells1.length = cs; rw [hlen, hc]⟩

/-- Every state reachable after `tb_init` satisfies the mirror invariant. -/
theorem Reachable.inv (K : Termbox) (s : State) (hr : Reachable K s) : s.Inv := by
  induction hr with
  | init s err hs =>
    unfold tb_init
    split_ifs <;> exact ⟨hs, rfl⟩
  | cell_buffer s s1 p _ hcb ih =>
    obtain ⟨s2, h2, hI2, _⟩ := tb_cell_buffer_spec s ih
    rw [h2] at hcb
    simp only [Option.some.injEq, Prod.mk.injEq] at hcb
    rw [← hcb.1]
    exact hI2
  | present s s1 _ hp ih =>
    by_cases hs : s.cellSize = s.w * s.h
    · obtain ⟨cells, hm, hc⟩ := mirror_of_Inv s ih
      rw [tb_present_eq s cells hm (by omega) hs ih.1.1] at hp
      simp only [Option.some.injEq] at hp
      subst hp
      obtain ⟨⟨hb, hwf⟩, hI2⟩ := ih
      exact ⟨⟨by simp [termbox_Flush]; omega, hwf⟩, hI2⟩
    · have : tb_present s = some (termbox_Flush s) := by
        simp [tb_present, termbox_Size, hs]
      rw [this] at hp
      simp only [Option.some.injEq] at hp
      subst hp
      exact ih
  | clear s s1 _ hc ih =>
    obtain ⟨s2, h2, hI2⟩ := tb_clear_spec K s ih
    rw [h2] at hc
    simp only [Option.some.injEq] at hc
    rw [← hc]
    exact hI2
  | shutdown s _ ih => exact ih
  | backend s w h buf front _ hb ih =>
    exact ⟨⟨hb, ih.1.2⟩, ih.2⟩
  | edit s a cells cells1 _ hp hl hlen ih =>
    obtain ⟨⟨hb, hwf⟩, hI2⟩ := ih
    refine ⟨⟨hb, Heap.WF_store _ _ _ hwf⟩, ?_⟩
    rw [hp] at hI2
    obtain ⟨cells0, hl0, hc0⟩ := hI2
    rw [hl] at hl0
    simp only [Option.some.injEq] at hl0
    subst hl0
    simp only [hp]
    exact ⟨cells1, Heap.lookup_store_same s.heap a cells1 cells hl, by omega⟩

/-! ## Grid mirror -/

theorem exampleBackend_sane : exampleBackend.Sane := by
  refine ⟨rfl, ?_, ?_, ?_, List.nodup_nil⟩ <;> intro e he <;> cases he

/-- C1: from a state reachable after `tb_init` (so the grid has `w * h` cells)
whose cells hold 16-bit attributes and 32-bit runes, `tb_cell_buffer` followed
by `tb_present` both return and leave the backend grid as it was before the two
calls. -/
theorem tb_cell_buffer_tb_present_roundtrip (K : Termbox) (s : State) (hr : Reachable K s)
    (hrange : ∀ c ∈ s.buf, c.Fg < 2 ^ 16 ∧ c.Bg < 2 ^ 16 ∧ -2 ^ 31 ≤ c.Ch ∧ c.Ch < 2 ^ 31) :
    ∃ s1 s2, tb_cell_buffer s = some (s1, s1.cellBuffer) ∧ tb_present s1 = some s2 ∧
      s2.buf = s.buf ∧ s2.w = s.w ∧ s2.h = s.h := by
  have hI := Reachable.inv K s hr
  obtain ⟨s1, h1, hI1, hw, hh, hbuf, _, hcs, hm⟩ := tb_cell_buffer_spec s hI
  have hlen : (s.buf.map ofCell).length = s1.w * s1.h := by
    rw [List.length_map, hw, hh]; exact hI.1.1
  have h2 := tb_present_eq s1 (s.buf.map ofCell) hm hlen (by rw [hcs, hw, hh])
    (by rw [hbuf, hw, hh]; exact hI.1.1)
  refine ⟨s1, _, h1, h2, ?_, hw, hh⟩
  show (s.buf.map ofCell).map toCell = s.buf
  rw [List.map_map]
  conv_rhs => rw [← List.map_id s.buf]
  apply List.map_congr_left
  intro c hc
  obtain ⟨hf, hb, h0, h1⟩ := hrange c hc
  exact toCell_ofCell c hf hb h0 h1

/-- Witness of `tb_cell_buffer_tb_present_roundtrip`: the 2x1 terminal right
after `tb_init`. -/
theorem tb_cell_buffer_tb_present_roundtrip_witness :
    ∃ s1 s2, tb_cell_buffer exampleState = some (s1, s1.cellBuffer) ∧
      tb_present s1 = some s2 ∧ s2.buf = [⟨97, 1, 2⟩, ⟨98, 3, 4⟩] ∧ s2.w = 2 ∧ s2.h = 1 :=
  tb_cell_buffer_tb_present_roundtrip termbox_go exampleState
    (Reachable.init exampleBackend false exampleBackend_sane) (by decide)

/-- C2 (as the code has it): when `cellSize` equals `w * h`, the mirror buffer
holds `cellSize` records and the grid `w * h` cells, `tb_present` returns and
the whole grid is the buffer converted cell for cell: cell `i` has `Fg = fg`,
`Bg = bg` and `Ch` the signed 32-bit rune with the bits of `ch`, which is `ch`
when `ch < 2^31` and `ch - 2^32` when `2^31 ≤ ch < 2^32`. -/
theorem tb_present_edit_propagation (s : State) (cells : List tb_cell)
    (hs : s.cellSize = s.w * s.h) (hb : s.buf.length = s.w * s.h)
    (hm : mirror s = some cells) (hc : cells.length = s.cellSize) :
    ∃ s1, tb_present s = some s1 ∧ s1.buf = cells.map toCell ∧
      ∀ i, i < s.w * s.h → ∃ c b, cells[i]? = some c ∧ s1.buf[i]? = some b ∧
        b.Fg = c.fg ∧ b.Bg = c.bg ∧
        (c.ch < 2 ^ 31 → b.Ch = c.ch) ∧
        (2 ^ 31 ≤ c.ch → c.ch < 2 ^ 32 → b.Ch = (c.ch : Int) - 2 ^ 32) ∧
        (c.ch < 2 ^ 32 → uint32 b.Ch = c.ch) := by
  refine ⟨_, tb_present_eq s cells hm (by omega) hs hb, rfl, ?_⟩
  intro i hi
  have hic : i < cells.length := by omega
  refine ⟨cells[i], toCell cells[i], List.getElem?_eq_getElem hic, ?_, rfl, rfl, ?_, ?_, ?_⟩
  · show (cells.map toCell)[i]? = some (toCell cells[i])
    rw [List.getElem?_map, List.getElem?_eq_getElem hic]
    rfl
  · intro h
    show rune cells[i].ch = _
    unfold rune
    rw [Nat.mod_eq_of_lt (by omega), if_pos h]
  · intro h h1
    show rune cells[i].ch = _
    unfold rune
    rw [Nat.mod_eq_of_lt h1, if_neg (by omega)]
  · intro h
    exact uint32_rune _ h

/-- Witness of `tb_present_edit_propagation`: the 1x1 terminal whose buffer
holds `ch = 2^31`. -/
theorem tb_present_edit_propagation_witness :
    ∃ s1, tb_present exampleHighBit = some s1 ∧
      s1.buf = [⟨2147483648, 1, 2⟩].map toCell ∧
      ∀ i, i < 1 * 1 → ∃ c b, [(⟨2147483648, 1, 2⟩ : tb_cell)][i]? = some c ∧
        s1.buf[i]? = some b ∧ b.Fg = c.fg ∧ b.Bg = c.bg ∧
        (c.ch < 2 ^ 31 → b.Ch = c.ch) ∧
        (2 ^ 31 ≤ c.ch → c.ch < 2 ^ 32 → b.Ch = (c.ch : Int) - 2 ^ 32) ∧
        (c.ch < 2 ^ 32 → uint32 b.Ch = c.ch) :=
  tb_present_edit_propagation exampleHighBit [⟨2147483648, 1, 2⟩] rfl rfl rfl rfl

/-- C2 (as stated) fails: with matching sizes and `ch = 2^31` in record 0,
`tb_present` leaves `Ch = -2^31` in cell 0, not `2^31`. -/
theorem tb_present_edit_propagation_counterexample :
    exampleHighBit.cellSize = exampleHighBit.w * exampleHighBit.h ∧
    mirror exampleHighBit = some [⟨2147483648, 1, 2⟩] ∧
    (tb_present exampleHighBit).map (fun s1 => s1.buf) = some [⟨-2147483648, 1, 2⟩] ∧
    (tb_present exampleHighBit).map (fun s1 => s1.buf.map (fun b => b.Ch))
      ≠ some [2147483648] := by
  decide

/-- C3: when `cellSize` differs from `w * h`, `tb_present` only flushes: it
returns the state with the grid as it was, and it does so whatever `cellBuffer`
and the heap are (`nil`, dangling or live), so no record is read. -/
theorem tb_present_size_mismatch (s : State) (hs : s.cellSize ≠ s.w * s.h) :
    tb_present s = some (termbox_Flush s) ∧ (termbox_Flush s).buf = s.buf ∧
    ∀ (p : Option Nat) (hp : Heap),
      (tb_present { s with cellBuffer := p, heap := hp }).map (fun s1 => s1.buf) = some s.buf := by
  refine ⟨?_, rfl, ?_⟩
  · simp [tb_present, termbox_Size, hs]
  · intro p hp
    simp [tb_present, termbox_Size, hs, termbox_Flush]

/-- Witness of `tb_present_size_mismatch`: a 2x1 terminal with a buffer of one record. -/
theorem tb_present_size_mismatch_witness :
    tb_present exampleMismatch = some (termbox_Flush exampleMismatch) ∧
    (termbox_Flush exampleMismatch).buf = exampleMismatch.buf ∧
    ∀ (p : Option Nat) (hp : Heap),
      (tb_present { exampleMismatch with cellBuffer := p, heap := hp }).map (fun s1 => s1.buf)
        = some exampleMismatch.buf :=
  tb_present_size_mismatch exampleMismatch (by decide)

/-- C4: from every state reachable after `tb_init` (whatever terminal sizes
were seen before, and also when no buffer exists yet), `tb_cell_buffer`
returns; afterwards the mirror buffer holds exactly `w * h` records and
`cellSize` is `w * h`. When `cellSize` differed from `w * h`, the call made one
`free`, of the old buffer if there was one (it had not been freed before, is
freed exactly once and is no longer live), and then one `malloc`, of the block
that is now `cellBuffer`. -/
theorem tb_cell_buffer_resize (K : Termbox) (s : State) (hr : Reachable K s) :
    ∃ s1, tb_cell_buffer s = some (s1, s1.cellBuffer) ∧ s1.w = s.w ∧ s1.h = s.h ∧
      s1.cellSize = s.w * s.h ∧
      (∃ cells, mirror s1 = some cells ∧ cells.length = s.w * s.h) ∧
      (s.cellSize ≠ s.w * s.h →
        s1.cellBuffer = some s.heap.next ∧ s1.heap.next = s.heap.next + 1 ∧
        s1.heap.freed = (match s.cellBuffer with
                         | some a => a :: s.heap.freed
                         | none => s.heap.freed) ∧
        ∀ a, s.cellBuffer = some a →
          a ∉ s.heap.freed ∧ s1.heap.freed.count a = 1 ∧ s1.heap.lookup a = none) := by
  have hI := Reachable.inv K s hr
  obtain ⟨s1, h1, _, hw, hh, _, _, hcs, hm⟩ := tb_cell_buffer_spec s hI
  refine ⟨s1, h1, hw, hh, hcs, ⟨_, hm, by rw [List.length_map]; exact hI.1.1⟩, ?_⟩
  intro hs
  obtain ⟨s2, h2, hrest⟩ := tb_cell_buffer_realloc_heap s hI hs
  rw [h1] at h2
  simp only [Option.some.injEq, Prod.mk.injEq] at h2
  rw [← h2.1] at hrest
  exact hrest

/-- Witness of `tb_cell_buffer_resize`: the first call after `tb_init` on the
2x1 terminal. -/
theorem tb_cell_buffer_resize_witness :
    ∃ s1, tb_cell_buffer exampleState = some (s1, s1.cellBuffer) ∧ s1.w = 2 ∧ s1.h = 1 ∧
      s1.cellSize = 2 * 1 ∧
      (∃ cells, mirror s1 = some cells ∧ cells.length = 2 * 1) ∧
      (exampleState.cellSize ≠ 2 * 1 →
        s1.cellBuffer = some 0 ∧ s1.heap.next = 0 + 1 ∧
        s1.heap.freed = [] ∧
        ∀ a, exampleState.cellBuffer = some a →
          a ∉ exampleState.heap.freed ∧ s1.heap.freed.count a = 1 ∧
            s1.heap.lookup a = none) :=
  tb_cell_buffer_resize termbox_go exampleState
    (Reachable.init exampleBackend false exampleBackend_sane)

/-- C5: on a state that satisfies the mirror invariant (a grid of `w * h`
cells; whatever the records of the buffer hold), `tb_cell_buffer` returns,
leaves the backend as it was, and afterwards the buffer has `w * h` records,
record `i` holding `fg = Fg mod 2^16`, `bg = Bg mod 2^16` and `ch = Ch mod 2^32`
of backend cell `i`. -/
theorem tb_cell_buffer_copies_grid (s : State) (hI : s.Inv) :
    ∃ s1, tb_cell_buffer s = some (s1, s1.cellBuffer) ∧
      s1.buf = s.buf ∧ s1.w = s.w ∧ s1.h = s.h ∧ s1.front = s.front ∧
      ∃ cells, mirror s1 = some cells ∧ cells.length = s.w * s.h ∧
        ∀ i, i < s.w * s.h → ∃ b c, s.buf[i]? = some b ∧ cells[i]? = some c ∧
          c.fg = b.Fg % 2 ^ 16 ∧ c.bg = b.Bg % 2 ^ 16 ∧ (c.ch : Int) = b.Ch % 2 ^ 32 := by
  obtain ⟨s1, h1, _, hw, hh, hbuf, hfr, _, hm⟩ := tb_cell_buffer_spec s hI
  refine ⟨s1, h1, hbuf, hw, hh, hfr, _, hm, by rw [List.length_map]; exact hI.1.1, ?_⟩
  intro i hi
  have hib : i < s.buf.length := by rw [hI.1.1]; exact hi
  refine ⟨s.buf[i], ofCell s.buf[i], List.getElem?_eq_getElem hib, ?_, rfl, rfl, ?_⟩
  · rw [List.getElem?_map, List.getElem?_eq_getElem hib]
    rfl
  · show (((s.buf[i].Ch % 2 ^ 32).toNat : Nat) : Int) = _
    exact Int.toNat_of_nonneg (Int.emod_nonneg _ (by norm_num))

theorem exampleMismatch_inv : exampleMismatch.Inv := by
  refine ⟨⟨rfl, ?_, ?_, ?_, List.nodup_nil⟩, ⟨[⟨120, 5, 6⟩], rfl, rfl⟩⟩
  · intro e he
    simp only [exampleMismatch, List.mem_singleton] at he
    subst he
    decide
  · intro a ha; cases ha
  · intro a ha; cases ha

/-- Witness of `tb_cell_buffer_copies_grid`: the 2x1 terminal whose buffer holds
one record written by the caller. -/
theorem tb_cell_buffer_copies_grid_witness :
    ∃ s1, tb_cell_buffer exampleMismatch = some (s1, s1.cellBuffer) ∧
      s1.buf = [⟨97, 1, 2⟩, ⟨98, 3, 4⟩] ∧ s1.w = 2 ∧ s1.h = 1 ∧ s1.front = [] ∧
      ∃ cells, mirror s1 = some cells ∧ cells.length = 2 * 1 ∧
        ∀ i, i < 2 * 1 → ∃ b c, exampleMismatch.buf[i]? = some b ∧ cells[i]? = some c ∧
          c.fg = b.Fg % 2 ^ 16 ∧ c.bg = b.Bg % 2 ^ 16 ∧ (c.ch : Int) = b.Ch % 2 ^ 32 :=
  tb_cell_buffer_copies_grid exampleMismatch exampleMismatch_inv

/-- What `tb_clear` leaves of the buffer: a record that starts at or after byte
`cellSize` of the block is not written. -/
theorem tb_clear_keeps_record (K : Termbox) (s : State) (a : Nat) (cells : List tb_cell)
    (j : Nat) (c : tb_cell) (hp : s.cellBuffer = some a) (hl : s.heap.lookup a = some cells)
    (hc : cells.length = s.cellSize) (hj : s.cellSize ≤ sizeof_struct_tb_cell * j)
    (hcj : cells[j]? = some c) :
    ∃ s1 cells1, tb_clear K s = some s1 ∧ mirror s1 = some cells1 ∧ cells1[j]? = some c := by
  obtain ⟨w, h, buf, front, cb, cs, heap⟩ := s
  simp only at hp hl hc hj
  subst hp
  have hjl : j < cells.length := by
    by_contra hn
    rw [List.getElem?_eq_none (Nat.le_of_not_lt hn)] at hcj
    cases hcj
  have h0 : cs ≠ 0 := by omega
  obtain ⟨cells1, hm, _⟩ := memset_some cells 0 cs (by rw [hc, sizeof_struct_tb_cell]; omega)
  refine ⟨termbox_Clear K.ColorDefault K.ColorDefault
      ⟨w, h, buf, front, some a, cs, heap.store a cells1⟩, cells1, ?_, ?_, ?_⟩
  · simp [tb_clear, h0, hl, hm]
  · exact Heap.lookup_store_same heap a cells1 cells hl
  · have hle : cs ≤ sizeof_struct_tb_cell * cells.length := by
      rw [hc, sizeof_struct_tb_cell]; omega
    rw [memset, if_pos hle] at hm
    simp only [Option.some.injEq] at hm
    rw [← hm, List.getElem?_map, List.getElem?_enum, hcj]
    simp [memsetCell, Nat.sub_eq_zero_of_le hj]

/-- C6 fails on the code: on the 2x1 terminal, after `tb_init` and
`tb_cell_buffer` the buffer holds the two records `(97, 1, 2)` and `(98, 3, 4)`
and `cellSize` is 2; `tb_clear` then zeroes 2 bytes, not 2 records: record 0
keeps `fg = 1` and `bg = 2`, and record 1 is untouched. -/
theorem tb_clear_zeroes_cellSize_bytes :
    (tb_cell_buffer exampleState).bind (fun r => mirror r.1)
      = some [⟨97, 1, 2⟩, ⟨98, 3, 4⟩] ∧
    (tb_cell_buffer exampleState).map (fun r => r.1.cellSize) = some 2 ∧
    ((tb_cell_buffer exampleState).bind (fun r => tb_clear termbox_go r.1)).bind mirror
      = some [⟨0, 1, 2⟩, ⟨98, 3, 4⟩] := by
  decide

/-! ## Invariant and round trips of the mirror -/

theorem ofCell_toCell (c : tb_cell) (hf : c.fg < 2 ^ 16) (hb : c.bg < 2 ^ 16)
    (hc : c.ch < 2 ^ 32) : ofCell (toCell c) = c := by
  cases c with
  | mk ch fg bg =>
    simp only [toCell, ofCell, Attribute, uint16_t] at *
    rw [uint32_rune ch hc, Nat.mod_eq_of_lt hf, Nat.mod_eq_of_lt hb]

/-- A call of `tb_init` in a reachable state leads to a reachable state. -/
theorem Reachable.reinit (K : Termbox) (s : State) (err : Bool) (hr : Reachable K s) :
    Reachable K (tb_init err s).1 :=
  Reachable.init s err (Reachable.inv K s hr).1

theorem exampleAcquired_reachable (K : Termbox) : Reachable K exampleAcquired :=
  Reachable.cell_buffer exampleState exampleAcquired (some 0)
    (Reachable.init exampleBackend false exampleBackend_sane) (by decide)

/-- Without a size change `tb_cell_buffer` keeps the pointer, the recorded
length and the allocation state of the heap. -/
theorem tb_cell_buffer_keep_heap (s : State) (hI : s.Inv) (hs : s.cellSize = s.w * s.h) :
    ∃ s1, tb_cell_buffer s = some (s1, s1.cellBuffer) ∧ s1.cellBuffer = s.cellBuffer ∧
      s1.cellSize = s.cellSize ∧ s1.heap.next = s.heap.next ∧
      s1.heap.freed = s.heap.freed ∧ mirror s1 = some (s.buf.map ofCell) := by
  obtain ⟨s1, h1, _, _, _, _, _, hcs, hm⟩ := tb_cell_buffer_spec s hI
  have hk := tb_cell_buffer_keep s hI hs
  rw [h1] at hk
  simp only [Option.some.injEq, Prod.mk.injEq] at hk
  refine ⟨s1, h1, hk.2, by rw [hcs, hs], ?_, ?_, hm⟩
  · rw [hk.1]
    cases s.cellBuffer <;> rfl
  · rw [hk.1]
    cases s.cellBuffer <;> rfl

/-- C17: in every state reachable after `tb_init` (by calls of the exported
functions, backend changes such as terminal resizes that leave a grid of
`w * h` cells, and caller writes into the buffer), a non-zero `cellSize` means
that `cellBuffer` is a live block of exactly `cellSize` records. So with
matching sizes every index below `w * h` lies inside both the buffer and the
grid, `tb_present` returns (no access through `nil` or out of bounds), and
`tb_cell_buffer` returns with every index below `w * h` inside the buffer it
leaves and inside the grid. -/
theorem reachable_mirror_invariant (K : Termbox) (s : State) (hr : Reachable K s) :
    (s.cellSize ≠ 0 → ∃ a cells, s.cellBuffer = some a ∧ s.heap.lookup a = some cells ∧
      cells.length = s.cellSize) ∧
    (s.cellSize = s.w * s.h → ∀ i, i < s.w * s.h →
      (deref s.heap s.cellBuffer i).isSome ∧ i < s.buf.length) ∧
    (∃ s1, tb_present s = some s1) ∧
    (∃ s1, tb_cell_buffer s = some (s1, s1.cellBuffer) ∧ ∀ i, i < s.w * s.h →
      (deref s1.heap s1.cellBuffer i).isSome ∧ i < s.buf.length) := by
  have hI := Reachable.inv K s hr
  have hb : s.buf.length = s.w * s.h := hI.1.1
  refine ⟨?_, ?_, ?_, ?_⟩
  · intro h0
    have h2 := hI.2
    cases hp : s.cellBuffer with
    | none => rw [hp] at h2; exact absurd h2 h0
    | some a =>
      rw [hp] at h2
      obtain ⟨cells, hl, hc⟩ := h2
      exact ⟨a, cells, rfl, hl, hc⟩
  · intro hs i hi
    refine ⟨?_, by omega⟩
    have h2 := hI.2
    cases hp : s.cellBuffer with
    | none => rw [hp] at h2; omega
    | some a =>
      rw [hp] at h2
      obtain ⟨cells, hl, hc⟩ := h2
      simp only [deref, hl, Option.some_bind]
      rw [List.getElem?_eq_getElem (by omega)]
      rfl
  · by_cases hs : s.cellSize = s.w * s.h
    · obtain ⟨cells, hm, hc⟩ := mirror_of_Inv s hI
      exact ⟨_, tb_present_eq s cells hm (by omega) hs hb⟩
    · exact ⟨termbox_Flush s, by simp [tb_present, termbox_Size, hs]⟩
  · obtain ⟨s1, h1, _, _, _, _, _, _, hm⟩ := tb_cell_buffer_spec s hI
    refine ⟨s1, h1, ?_⟩
    intro i hi
    refine ⟨?_, by omega⟩
    have hlen : i < (s.buf.map ofCell).length := by rw [List.length_map]; omega
    unfold mirror at hm
    cases hp : s1.cellBuffer with
    | none =>
      rw [hp] at hm
      simp only [Option.some.injEq] at hm
      rw [← hm] at hlen
      cases hlen
    | some a =>
      rw [hp] at hm
      have hl : s1.heap.lookup a = some (s.buf.map ofCell) := hm
      simp only [deref, hl, Option.some_bind]
      rw [List.getElem?_eq_getElem hlen]
      rfl

/-- Witness of `reachable_mirror_invariant`: the 2x1 terminal after `tb_init`
and `tb_cell_buffer`, where `cellSize` is 2. -/
theorem reachable_mirror_invariant_witness :
    (exampleAcquired.cellSize ≠ 0 → ∃ a cells, exampleAcquired.cellBuffer = some a ∧
      exampleAcquired.heap.lookup a = some cells ∧ cells.length = 2) ∧
    (exampleAcquired.cellSize = 2 * 1 → ∀ i, i < 2 * 1 →
      (deref exampleAcquired.heap exampleAcquired.cellBuffer i).isSome ∧
        i < exampleAcquired.buf.length) ∧
    (∃ s1, tb_present exampleAcquired = some s1) ∧
    (∃ s1, tb_cell_buffer exampleAcquired = some (s1, s1.cellBuffer) ∧ ∀ i, i < 2 * 1 →
      (deref s1.heap s1.cellBuffer i).isSome ∧ i < exampleAcquired.buf.length) :=
  reachable_mirror_invariant termbox_go exampleAcquired (exampleAcquired_reachable termbox_go)

/-- C18: on a state that satisfies the mirror invariant with `cellSize` equal
to `w * h`, whatever 16-bit `fg`, `bg` and 32-bit `ch` (also `ch ≥ 2^31`) the
records of the buffer hold, `tb_present` followed by `tb_cell_buffer` both
return, the buffer is the same block with the same recorded length, and every
record holds the `fg`, `bg` and `ch` it held before `tb_present`. -/
theorem tb_present_tb_cell_buffer_roundtrip (s : State) (cells : List tb_cell)
    (hI : s.Inv) (hs : s.cellSize = s.w * s.h) (hm : mirror s = some cells)
    (hrange : ∀ c ∈ cells, c.fg < 2 ^ 16 ∧ c.bg < 2 ^ 16 ∧ c.ch < 2 ^ 32) :
    ∃ s1 s2, tb_present s = some s1 ∧ tb_cell_buffer s1 = some (s2, s2.cellBuffer) ∧
      mirror s2 = some cells ∧ s2.cellBuffer = s.cellBuffer ∧ s2.cellSize = s.cellSize := by
  obtain ⟨cells0, hm0, hc0⟩ := mirror_of_Inv s hI
  rw [hm] at hm0
  simp only [Option.some.injEq] at hm0
  subst hm0
  have hp := tb_present_eq s cells hm (by omega) hs hI.1.1
  have hI1 : (termbox_Flush { s with buf := cells.map toCell }).Inv := by
    obtain ⟨⟨_, hwf⟩, hI2⟩ := hI
    exact ⟨⟨by simp [termbox_Flush]; omega, hwf⟩, hI2⟩
  obtain ⟨s2, h2, hcb, hcs, _, _, hm2⟩ :=
    tb_cell_buffer_keep_heap (termbox_Flush { s with buf := cells.map toCell }) hI1 hs
  refine ⟨_, s2, hp, h2, ?_, hcb, hcs⟩
  rw [hm2]
  show some ((cells.map toCell).map ofCell) = some cells
  rw [List.map_map]
  congr 1
  conv_rhs => rw [← List.map_id cells]
  apply List.map_congr_left
  intro c hc
  obtain ⟨hf, hb, hch⟩ := hrange c hc
  exact ofCell_toCell c hf hb hch

theorem exampleHighBit_inv : exampleHighBit.Inv := by
  refine ⟨⟨rfl, ?_, ?_, ?_, List.nodup_nil⟩, ⟨[⟨2147483648, 1, 2⟩], rfl, rfl⟩⟩
  · intro e he
    simp only [exampleHighBit, List.mem_singleton] at he
    subst he
    decide
  · intro a ha; cases ha
  · intro a ha; cases ha

/-- Witness of `tb_present_tb_cell_buffer_roundtrip`: the 1x1 terminal whose
buffer holds `ch = 2^31`. -/
theorem tb_present_tb_cell_buffer_roundtrip_witness :
    ∃ s1 s2, tb_present exampleHighBit = some s1 ∧
      tb_cell_buffer s1 = some (s2, s2.cellBuffer) ∧
      mirror s2 = some [⟨2147483648, 1, 2⟩] ∧ s2.cellBuffer = some 0 ∧ s2.cellSize = 1 :=
  tb_present_tb_cell_buffer_roundtrip exampleHighBit [⟨2147483648, 1, 2⟩]
    exampleHighBit_inv rfl rfl (by decide)

/-- C19: from every state reachable after `tb_init`, `tb_cell_buffer` returns,
and a second call right after it returns the same pointer and leaves the whole
state as the first call left it: the same `cellBuffer`, the same `cellSize`,
the same records, and the same heap, so no block was freed (`freed` is as
before) and none allocated (`next` is as before). -/
theorem tb_cell_buffer_idempotent (K : Termbox) (s : State) (hr : Reachable K s) :
    ∃ s1, tb_cell_buffer s = some (s1, s1.cellBuffer) ∧
      tb_cell_buffer s1 = some (s1, s1.cellBuffer) ∧
      ∀ s2 p, tb_cell_buffer s1 = some (s2, p) →
        p = s1.cellBuffer ∧ s2.cellBuffer = s1.cellBuffer ∧ s2.cellSize = s1.cellSize ∧
        mirror s2 = mirror s1 ∧ s2.heap.freed = s1.heap.freed ∧
        s2.heap.next = s1.heap.next := by
  have hI := Reachable.inv K s hr
  obtain ⟨s1, h1, hI1, hw, hh, hbuf, _, hcs, hm⟩ := tb_cell_buffer_spec s hI
  have hs1 : s1.cellSize = s1.w * s1.h := by rw [hcs, hw, hh]
  have hk := tb_cell_buffer_keep s1 hI1 hs1
  have h2 : tb_cell_buffer s1 = some (s1, s1.cellBuffer) := by
    rw [hk]
    cases hp : s1.cellBuffer with
    | none => rfl
    | some a =>
      have hl : s1.heap.lookup a = some (s1.buf.map ofCell) := by
        rw [hbuf, ← hm, mirror, hp]
      simp only [Heap.store_lookup_self s1.heap a _ hl]
      rw [← hp]
  refine ⟨s1, h1, h2, ?_⟩
  intro s2 p h3
  rw [h2] at h3
  simp only [Option.some.injEq, Prod.mk.injEq] at h3
  obtain ⟨e1, e2⟩ := h3
  subst e1
  exact ⟨e2.symm, rfl, rfl, rfl, rfl, rfl⟩

/-- Witness of `tb_cell_buffer_idempotent`: the 2x1 terminal right after `tb_init`. -/
theorem tb_cell_buffer_idempotent_witness :
    ∃ s1, tb_cell_buffer exampleState = some (s1, s1.cellBuffer) ∧
      tb_cell_buffer s1 = some (s1, s1.cellBuffer) ∧
      ∀ s2 p, tb_cell_buffer s1 = some (s2, p) →
        p = s1.cellBuffer ∧ s2.cellBuffer = s1.cellBuffer ∧ s2.cellSize = s1.cellSize ∧
        mirror s2 = mirror s1 ∧ s2.heap.freed = s1.heap.freed ∧
        s2.heap.next = s1.heap.next :=
  tb_cell_buffer_idempotent termbox_go exampleState
    (Reachable.init exampleBackend false exampleBackend_sane)

/-! ## Event translation -/

/-- What `tb_poll_event` does with a key event that carries no character and a
key outside the table: `type` is 1, `key` is 0, and every other field of the
record, `ch` included, keeps the value it had. -/
theorem tb_poll_event_unmapped_key (K : Termbox) (event : Event) (ev : tb_event)
    (hT : event.Type_ = K.EventKey) (hC : event.Ch = 0) (h1 : event.Key ≠ K.KeySpace)
    (h2 : event.Key ≠ K.KeyArrowUp) (h3 : event.Key ≠ K.KeyArrowDown) :
    tb_poll_event K event ev = ({ ev with type := 1, key := 0 }, 1) := by
  simp [tb_poll_event, hT, hC, h1, h2, h3, TB_EVENT_KEY]

/-- C7 (as the code has it): for a resize event `tb_poll_event` sets `type` to 2
and returns 1; every other field of the record, `w` and `h` included, keeps the
value it had before the call. -/
theorem tb_poll_event_resize (K : Termbox) (event : Event) (ev : tb_event)
    (hK : K.EventKey ≠ K.EventResize) (hT : event.Type_ = K.EventResize) :
    tb_poll_event K event ev = ({ ev with type := 2 }, 1) := by
  have h : ¬ K.EventResize = K.EventKey := fun e => hK e.symm
  simp [tb_poll_event, hT, h, TB_EVENT_RESIZE]

/-- Witness of `tb_poll_event_resize`: the 80x24 resize event of termbox-go on a
record holding `w = 5`, `h = 6`. -/
theorem tb_poll_event_resize_witness :
    tb_poll_event termbox_go ⟨1, 0, 0, 0, 80, 24, 0, 0⟩ ⟨0, 0, 0, 0, 5, 6, 0, 0⟩
      = (⟨2, 0, 0, 0, 5, 6, 0, 0⟩, 1) :=
  tb_poll_event_resize termbox_go ⟨1, 0, 0, 0, 80, 24, 0, 0⟩ ⟨0, 0, 0, 0, 5, 6, 0, 0⟩
    (by decide) rfl

/-- C7 (as stated) fails: on a zero record the 80x24 resize event leaves
`w = 0` and `h = 0`, not 80 and 24. -/
theorem tb_poll_event_resize_counterexample :
    tb_poll_event termbox_go ⟨termbox_go.EventResize, 0, 0, 0, 80, 24, 0, 0⟩
        ⟨0, 0, 0, 0, 0, 0, 0, 0⟩ = (⟨2, 0, 0, 0, 0, 0, 0, 0⟩, 1) ∧
    (tb_poll_event termbox_go ⟨termbox_go.EventResize, 0, 0, 0, 80, 24, 0, 0⟩
        ⟨0, 0, 0, 0, 0, 0, 0, 0⟩).1.w ≠ 80 ∧
    (tb_poll_event termbox_go ⟨termbox_go.EventResize, 0, 0, 0, 80, 24, 0, 0⟩
        ⟨0, 0, 0, 0, 0, 0, 0, 0⟩).1.h ≠ 24 := by
  decide

/-- C8: for a key event with a non-zero `Ch`, whatever its `Key` and whatever
the record held, `tb_poll_event` returns 1 and leaves `type = 1`, `key = 0` and
`ch = uint32(Ch)`, which is `Ch` itself for a rune from 0 to `2^32 - 1`. -/
theorem tb_poll_event_key_char (K : Termbox) (event : Event) (ev : tb_event)
    (hT : event.Type_ = K.EventKey) (hC : event.Ch ≠ 0) :
    (tb_poll_event K event ev).2 = 1 ∧
    (tb_poll_event K event ev).1.type = 1 ∧
    (tb_poll_event K event ev).1.key = 0 ∧
    (tb_poll_event K event ev).1.ch = uint32 event.Ch ∧
    (0 ≤ event.Ch → event.Ch < 2 ^ 32 → ((tb_poll_event K event ev).1.ch : Int) = event.Ch) := by
  have hr : tb_poll_event K event ev
      = ({ ev with type := 1, key := 0, ch := uint32 event.Ch }, 1) := by
    simp [tb_poll_event, hT, hC, TB_EVENT_KEY]
  rw [hr]
  refine ⟨rfl, rfl, rfl, rfl, ?_⟩
  intro h0 h1
  show (((event.Ch % 2 ^ 32).toNat : Nat) : Int) = event.Ch
  rw [Int.emod_eq_of_lt h0 h1, Int.toNat_of_nonneg h0]

/-- Witness of `tb_poll_event_key_char`: the key event for the letter a (97),
with a `Key` field of 5, on a record holding a stale `key = 9` and `ch = 3`. -/
theorem tb_poll_event_key_char_witness :
    (tb_poll_event termbox_go ⟨0, 0, 5, 97, 0, 0, 0, 0⟩ ⟨0, 0, 9, 3, 0, 0, 0, 0⟩).1.type = 1 ∧
    (tb_poll_event termbox_go ⟨0, 0, 5, 97, 0, 0, 0, 0⟩ ⟨0, 0, 9, 3, 0, 0, 0, 0⟩).1.key = 0 ∧
    (tb_poll_event termbox_go ⟨0, 0, 5, 97, 0, 0, 0, 0⟩ ⟨0, 0, 9, 3, 0, 0, 0, 0⟩).1.ch = 97 :=
  have h := tb_poll_event_key_char termbox_go ⟨0, 0, 5, 97, 0, 0, 0, 0⟩
    ⟨0, 0, 9, 3, 0, 0, 0, 0⟩ rfl (by decide)
  ⟨h.2.1, h.2.2.1, h.2.2.2.1⟩

/-- C9 fails on the code: a record that still holds `ch = 97` from the poll of
the key event for the letter a keeps `ch = 97` after the poll of the key event
for F1 (`Ch = 0`, `Key = 0xFFFF`, not in the table); only `type` and `key` are
written. -/
theorem tb_poll_event_unmapped_key_stale_ch :
    (tb_poll_event termbox_go ⟨termbox_go.EventKey, 0, 0, 97, 0, 0, 0, 0⟩
        ⟨0, 0, 0, 0, 0, 0, 0, 0⟩).1 = ⟨1, 0, 0, 97, 0, 0, 0, 0⟩ ∧
    (tb_poll_event termbox_go ⟨termbox_go.EventKey, 0, 0xFFFF, 0, 0, 0, 0, 0⟩
        ⟨1, 0, 0, 97, 0, 0, 0, 0⟩).1 = ⟨1, 0, 0, 97, 0, 0, 0, 0⟩ ∧
    (tb_poll_event termbox_go ⟨termbox_go.EventKey, 0, 0xFFFF, 0, 0, 0, 0, 0⟩
        ⟨1, 0, 0, 97, 0, 0, 0, 0⟩).1.ch ≠ 0 := by
  decide

/-- C10: for a key event with `Ch = 0` (the three backend key constants being
distinct), `tb_poll_event` leaves `type = 1`, and `key` is `0x20` for space,
65517 for arrow-up and 65516 for arrow-down; a key of the table gives a non-zero
code, and two different keys of the table give different codes. -/
theorem tb_poll_event_named_key (K : Termbox) (event : Event) (ev : tb_event)
    (hsu : K.KeySpace ≠ K.KeyArrowUp) (hsd : K.KeySpace ≠ K.KeyArrowDown)
    (hud : K.KeyArrowUp ≠ K.KeyArrowDown)
    (hT : event.Type_ = K.EventKey) (hC : event.Ch = 0) :
    (tb_poll_event K event ev).1.type = 1 ∧
    (event.Key = K.KeySpace → (tb_poll_event K event ev).1.key = 0x20) ∧
    (event.Key = K.KeyArrowUp → (tb_poll_event K event ev).1.key = 65517) ∧
    (event.Key = K.KeyArrowDown → (tb_poll_event K event ev).1.key = 65516) ∧
    (event.Key = K.KeySpace ∨ event.Key = K.KeyArrowUp ∨ event.Key = K.KeyArrowDown →
      (tb_poll_event K event ev).1.key ≠ 0) ∧
    (∀ (event1 : Event) (ev1 : tb_event), event1.Type_ = K.EventKey → event1.Ch = 0 →
      (event.Key = K.KeySpace ∨ event.Key = K.KeyArrowUp ∨ event.Key = K.KeyArrowDown) →
      (event1.Key = K.KeySpace ∨ event1.Key = K.KeyArrowUp ∨ event1.Key = K.KeyArrowDown) →
      event.Key ≠ event1.Key →
      (tb_poll_event K event ev).1.key ≠ (tb_poll_event K event1 ev1).1.key) := by
  have hus : ¬ K.KeyArrowUp = K.KeySpace := fun e => hsu e.symm
  have hds : ¬ K.KeyArrowDown = K.KeySpace := fun e => hsd e.symm
  have hdu : ¬ K.KeyArrowDown = K.KeyArrowUp := fun e => hud e.symm
  have key_space : ∀ (e : Event) (r : tb_event), e.Type_ = K.EventKey → e.Ch = 0 →
      e.Key = K.KeySpace → (tb_poll_event K e r).1.key = 0x20 := by
    intro e r h1 h2 h3
    simp [tb_poll_event, h1, h2, h3, TB_KEY_SPACE]
  have key_up : ∀ (e : Event) (r : tb_event), e.Type_ = K.EventKey → e.Ch = 0 →
      e.Key = K.KeyArrowUp → (tb_poll_event K e r).1.key = 65517 := by
    intro e r h1 h2 h3
    simp [tb_poll_event, h1, h2, h3, hus, TB_KEY_ARROW_UP]
  have key_down : ∀ (e : Event) (r : tb_event), e.Type_ = K.EventKey → e.Ch = 0 →
      e.Key = K.KeyArrowDown → (tb_poll_event K e r).1.key = 65516 := by
    intro e r h1 h2 h3
    simp [tb_poll_event, h1, h2, h3, hds, hdu, TB_KEY_ARROW_DOWN]
  refine ⟨?_, key_space event ev hT hC, key_up event ev hT hC, key_down event ev hT hC, ?_, ?_⟩
  · simp only [tb_poll_event, hT, hC, if_true, TB_EVENT_KEY]
    split_ifs <;> rfl
  · rintro (h | h | h)
    · rw [key_space event ev hT hC h]; decide
    · rw [key_up event ev hT hC h]; decide
    · rw [key_down event ev hT hC h]; decide
  · intro event1 ev1 hT1 hC1 hk hk1 hne
    rcases hk with h | h | h <;> rcases hk1 with h1 | h1 | h1
    all_goals first
      | exact absurd (h.trans h1.symm) hne
      | ((first
            | rw [key_space event ev hT hC h]
            | rw [key_up event ev hT hC h]
            | rw [key_down event ev hT hC h])
         (first
            | rw [key_space event1 ev1 hT1 hC1 h1]
            | rw [key_up event1 ev1 hT1 hC1 h1]
            | rw [key_down event1 ev1 hT1 hC1 h1])
         decide)

/-- Witness of `tb_poll_event_named_key`: the arrow-up key event of termbox-go. -/
theorem tb_poll_event_named_key_witness :
    (tb_poll_event termbox_go ⟨0, 0, 0xFFFF - 18, 0, 0, 0, 0, 0⟩
      ⟨0, 0, 0, 0, 0, 0, 0, 0⟩).1.key = 65517 :=
  (tb_poll_event_named_key termbox_go ⟨0, 0, 0xFFFF - 18, 0, 0, 0, 0, 0⟩
    ⟨0, 0, 0, 0, 0, 0, 0, 0⟩ (by decide) (by decide) (by decide) rfl rfl).2.2.1 rfl

/-- C11: for an event that is neither a key nor a resize event, `tb_poll_event`
sets `type` to 3 and returns 1; no other field of the record is written, so a
zero record comes back with `type = 3` and every other field zero. -/
theorem tb_poll_event_other (K : Termbox) (event : Event) (ev : tb_event)
    (hk : event.Type_ ≠ K.EventKey) (hr : event.Type_ ≠ K.EventResize) :
    tb_poll_event K event ev = ({ ev with type := 3 }, 1) ∧
    (tb_poll_event K event ⟨0, 0, 0, 0, 0, 0, 0, 0⟩).1 = ⟨3, 0, 0, 0, 0, 0, 0, 0⟩ := by
  constructor <;> simp [tb_poll_event, hk, hr]

/-- Witness of `tb_poll_event_other`: a mouse event of termbox-go (type 2) on a
record whose fields all hold 7. -/
theorem tb_poll_event_other_witness :
    tb_poll_event termbox_go ⟨2, 0, 0, 0, 0, 0, 3, 4⟩ ⟨7, 7, 7, 7, 7, 7, 7, 7⟩
      = (⟨3, 7, 7, 7, 7, 7, 7, 7⟩, 1) ∧
    (tb_poll_event termbox_go ⟨2, 0, 0, 0, 0, 0, 3, 4⟩ ⟨0, 0, 0, 0, 0, 0, 0, 0⟩).1
      = ⟨3, 0, 0, 0, 0, 0, 0, 0⟩ :=
  tb_poll_event_other termbox_go ⟨2, 0, 0, 0, 0, 0, 3, 4⟩ ⟨7, 7, 7, 7, 7, 7, 7, 7⟩
    (by decide) (by decide)

/-- C12: `tb_poll_event` returns 1 for every event and every record, and (the
backend constants for key and resize being distinct) the `type` it leaves is 1,
2 or 3: 1 exactly for a key event, 2 exactly for a resize event, 3 exactly for
any other event. -/
theorem tb_poll_event_total (K : Termbox) (event : Event) (ev : tb_event)
    (hK : K.EventKey ≠ K.EventResize) :
    (tb_poll_event K event ev).2 = 1 ∧
    ((tb_poll_event K event ev).1.type = 1 ∨ (tb_poll_event K event ev).1.type = 2 ∨
      (tb_poll_event K event ev).1.type = 3) ∧
    ((tb_poll_event K event ev).1.type = 1 ↔ event.Type_ = K.EventKey) ∧
    ((tb_poll_event K event ev).1.type = 2 ↔ event.Type_ = K.EventResize) ∧
    ((tb_poll_event K event ev).1.type = 3 ↔
      (event.Type_ ≠ K.EventKey ∧ event.Type_ ≠ K.EventResize)) := by
  by_cases hk : event.Type_ = K.EventKey
  · have hr : event.Type_ ≠ K.EventResize := fun e => hK (hk.symm.trans e)
    have ht : (tb_poll_event K event ev).1.type = 1 ∧ (tb_poll_event K event ev).2 = 1 := by
      simp only [tb_poll_event, hk, if_true, TB_EVENT_KEY]
      split_ifs <;> exact ⟨rfl, rfl⟩
    rw [ht.1, ht.2]
    simp [hk, hK]
  · by_cases hr : event.Type_ = K.EventResize
    · have hK1 : ¬ K.EventResize = K.EventKey := fun e => hK e.symm
      have ht : tb_poll_event K event ev = ({ ev with type := 2 }, 1) := by
        simp [tb_poll_event, hr, hK1, TB_EVENT_RESIZE]
      rw [ht]
      simp [hr, hK1]
    · have ht : tb_poll_event K event ev = ({ ev with type := 3 }, 1) := by
        simp [tb_poll_event, hk, hr]
      rw [ht]
      simp [hk, hr]

/-- Witness of `tb_poll_event_total`: the key event for the letter a of termbox-go. -/
theorem tb_poll_event_total_witness :
    (tb_poll_event termbox_go ⟨0, 0, 0, 97, 0, 0, 0, 0⟩ ⟨0, 0, 0, 0, 0, 0, 0, 0⟩).2 = 1 ∧
    (tb_poll_event termbox_go ⟨0, 0, 0, 97, 0, 0, 0, 0⟩ ⟨0, 0, 0, 0, 0, 0, 0, 0⟩).1.type = 1 :=
  have h := tb_poll_event_total termbox_go ⟨0, 0, 0, 97, 0, 0, 0, 0⟩
    ⟨0, 0, 0, 0, 0, 0, 0, 0⟩ (by decide)
  ⟨h.1, h.2.2.1.mpr rfl⟩

/-! ## Attribute tables and lifecycle -/

/-- C13 fails on the code: `cattrs` maps white to 2, not to `TB_WHITE` (8);
`attrs` has no entry for 2, so white does not come back from its code, and the
code 8 of `attrs` goes to white and comes back as 2. Default and black do
make the round trip both ways. -/
theorem cattrs_white_is_two :
    (cattrs termbox_go).lookup termbox_go.ColorWhite = some 2 ∧
    (cattrs termbox_go).lookup termbox_go.ColorWhite ≠ some TB_WHITE ∧
    ((cattrs termbox_go).lookup termbox_go.ColorWhite).bind (attrs termbox_go).lookup = none ∧
    ((attrs termbox_go).lookup 8).bind (cattrs termbox_go).lookup = some 2 ∧
    ((cattrs termbox_go).lookup termbox_go.ColorDefault).bind (attrs termbox_go).lookup
      = some termbox_go.ColorDefault ∧
    ((cattrs termbox_go).lookup termbox_go.ColorBlack).bind (attrs termbox_go).lookup
      = some termbox_go.ColorBlack ∧
    (cattrs termbox_go).lookup termbox_go.ColorBlack = some TB_BLACK := by
  decide

/-- C14 fails on the code: on the 2x1 terminal, after `tb_init` and
`tb_cell_buffer` the buffer is the live block at address 0; `tb_shutdown` frees
nothing (the log of frees stays empty and the block stays live), and a second
`tb_init` then drops the pointer, so the block is never freed. -/
theorem tb_shutdown_keeps_buffer :
    (tb_cell_buffer exampleState).map (fun r => r.2) = some (some 0) ∧
    (tb_cell_buffer exampleState).map (fun r => (tb_shutdown r.1).heap.freed) = some [] ∧
    (tb_cell_buffer exampleState).bind (fun r => (tb_shutdown r.1).heap.lookup 0)
      = some [⟨97, 1, 2⟩, ⟨98, 3, 4⟩] ∧
    (tb_cell_buffer exampleState).map
        (fun r => (tb_init false (tb_shutdown r.1)).1.cellBuffer) = some none ∧
    (tb_cell_buffer exampleState).map
        (fun r => ((tb_init false (tb_shutdown r.1)).1.heap.freed,
                   ((tb_init false (tb_shutdown r.1)).1.heap.lookup 0).isSome))
      = some ([], true) := by
  decide

/-- What `tb_shutdown` does to the mirror: nothing; the globals and the heap
are as before the call. -/
theorem tb_shutdown_eq (s : State) : tb_shutdown s = s := rfl

/-- C15: `tb_init` returns 0 when `termbox.Init()` succeeds and -1 when it
reports an error, and in both cases leaves `cellBuffer = nil` and
`cellSize = 0`, whatever the state before. -/
theorem tb_init_status (err : Bool) (s : State) :
    (tb_init err s).2 = (if err then -1 else 0) ∧
    ((tb_init err s).2 = 0 ∨ (tb_init err s).2 = -1) ∧
    (tb_init err s).1.cellBuffer = none ∧ (tb_init err s).1.cellSize = 0 := by
  cases err <;> simp [tb_init]

/-! ## Event translation: fields left alone -/

/-- C16: for a key event, with or without a character, `tb_poll_event` leaves
`mod`, `w`, `h`, `x` and `y` of the record as they were, and leaves `ch` as it
was when the event's `Ch` is zero. -/
theorem tb_poll_event_key_frame (K : Termbox) (event : Event) (ev : tb_event)
    (hT : event.Type_ = K.EventKey) :
    (tb_poll_event K event ev).1.mod = ev.mod ∧
    (tb_poll_event K event ev).1.w = ev.w ∧ (tb_poll_event K event ev).1.h = ev.h ∧
    (tb_poll_event K event ev).1.x = ev.x ∧ (tb_poll_event K event ev).1.y = ev.y ∧
    (event.Ch = 0 → (tb_poll_event K event ev).1.ch = ev.ch) := by
  simp only [tb_poll_event, hT, if_true]
  split_ifs with h1 h2 h3 h4
  all_goals simp_all

/-- Witness of `tb_poll_event_key_frame`: the arrow-up key event of termbox-go
on a record whose fields all hold 7. -/
theorem tb_poll_event_key_frame_witness :
    (tb_poll_event termbox_go ⟨0, 0, 0xFFFF - 18, 0, 0, 0, 0, 0⟩ ⟨7, 7, 7, 7, 7, 7, 7, 7⟩).1.mod
      = 7 ∧
    (tb_poll_event termbox_go ⟨0, 0, 0xFFFF - 18, 0, 0, 0, 0, 0⟩ ⟨7, 7, 7, 7, 7, 7, 7, 7⟩).1.w
      = 7 :=
  have h := tb_poll_event_key_frame termbox_go ⟨0, 0, 0xFFFF - 18, 0, 0, 0, 0, 0⟩
    ⟨7, 7, 7, 7, 7, 7, 7, 7⟩ rfl
  ⟨h.1, h.2.1⟩

end TermboxC
